import Mathlib

/-!
Verification development for the pipeline-inspection comparison engine.

The definitions below are a shallow embedding of the Python source:
* `compare_defects` embeds `multi_year_analysis.compare_defects`;
* `process_pipeline_defects` embeds the defects-table side of
  `data_processing.process_pipeline_data`;
* `float_to_clock`, `parse_clock`, `decimal_to_clock_str` embed `utils.py`.

Tabular data is modelled as a list of rows of cell values; a cell value is
either a rational number (modelling a finite float), the missing-value
sentinel NaN, or a string.  Arithmetic and comparison on cells follow
pandas/NumPy semantics: arithmetic involving a non-number yields NaN, and
any ordered comparison against NaN is false.
-/

/-- A cell of a dataframe: a finite numeric value (floats are modelled by
rationals), the missing-value sentinel (NaN/None), or a string. -/
inductive Val where
  | num : ℚ → Val
  | nan : Val
  | str : String → Val
deriving DecidableEq, Repr

namespace Val

/-- `Series.sub`: numeric subtraction; any non-numeric operand gives NaN. -/
def sub : Val → Val → Val
  | num a, num b => num (a - b)
  | _, _ => nan

/-- Numeric addition; any non-numeric operand gives NaN. -/
def add : Val → Val → Val
  | num a, num b => num (a + b)
  | _, _ => nan

/-- Numeric multiplication; any non-numeric operand gives NaN. -/
def mul : Val → Val → Val
  | num a, num b => num (a * b)
  | _, _ => nan

/-- Division by a (nonzero in all guarded uses) rational constant. -/
def divC : Val → ℚ → Val
  | num a, c => num (a / c)
  | _, _ => nan

/-- `Series.abs`: absolute value; NaN propagates. -/
def absV : Val → Val
  | num a => num |a|
  | _ => nan

/-- `x <= q` as pandas evaluates it: false whenever `x` is not a number. -/
def leQ : Val → ℚ → Bool
  | num a, q => a ≤ q
  | _, _ => false

/-- `x < 0` as Python evaluates it on floats: false for NaN. -/
def ltZeroB : Val → Bool
  | num a => a < 0
  | _ => false

/-- Extract the rational value of a numeric cell (0 otherwise; every use is
guarded by a `leQ` test, which guarantees the cell is numeric). -/
def toQ : Val → ℚ
  | num a => a
  | _ => 0

end Val

/-- A dataframe: a list of column names and a list of rows, each row a list
of cells positionally aligned with the column names. -/
structure DF where
  cols : List String
  rows : List (List Val)
deriving DecidableEq, Repr

/-- Column membership test (`col in df.columns`). -/
def DF.hasCol (df : DF) (c : String) : Bool :=
  df.cols.contains c

/-- Read the cell of `row` under column `c` of `df` (`row[c]`).  Every use
in the engine is guarded by a column-presence check, so the NaN default for
an absent column is never observable on guarded paths. -/
def DF.cell (df : DF) (row : List Val) (c : String) : Val :=
  match df.cols.findIdx? (fun c0 => c0 == c) with
  | some i => (row.get? i).getD Val.nan
  | none => Val.nan

/-- Pair every element of a list with its position starting at `i`:
the embedding of `df['defect_id'] = range(len(df))` plus `iterrows`. -/
def idxFrom (i : ℕ) : List α → List (ℕ × α)
  | [] => []
  | x :: xs => (i, x) :: idxFrom (i + 1) xs

/-- Column-name constant `'log dist. [m]'`. -/
def colLogDist : String := "log dist. [m]"

/-- Column-name constant `'component / anomaly identification'`. -/
def colAnomaly : String := "component / anomaly identification"

/-- Column-name constant `'depth [%]'`. -/
def colDepth : String := "depth [%]"

/-- Column-name constant `'wt nom [mm]'`. -/
def colWt : String := "wt nom [mm]"

/-- The millimetre-denominated growth fields of a match row (present only
when wall-thickness data exists in both tables). -/
structure MmData where
  old_depth_mm : Val
  new_depth_mm : Val
  depth_change_mm : Val
  growth_rate_mm_per_year : Val
deriving DecidableEq, Repr

/-- The depth/growth fields of a match row (present only when growth is
eligible and depth data exists in both tables). -/
structure GrowthData where
  old_depth_pct : Val
  new_depth_pct : Val
  depth_change_pct : Val
  growth_rate_pct_per_year : Val
  is_negative_growth : Bool
  mm : Option MmData
deriving DecidableEq, Repr

/-- One record of the `matches` list built by the engine. -/
structure MatchRow where
  new_defect_id : ℕ
  old_defect_id : ℕ
  distance_diff : ℚ
  log_dist : Val
  old_log_dist : Val
  defect_type : Val
  growth : Option GrowthData
deriving DecidableEq, Repr

/-- The values of the engine's locals that the matching loop reads. -/
structure Ctx where
  oldDF : DF
  newDF : DF
  tol : ℚ
  calculate_growth : Bool
  year_diff : ℤ
  has_depth_data : Bool
  has_wt_data : Bool
deriving DecidableEq, Repr

/-- Absolute log-distance difference between an old row and a new row
(`(old - new).abs()`), extracted as a rational. -/
def diffOf (ctx : Ctx) (nrow orow : List Val) : ℚ :=
  (((ctx.oldDF.cell orow colLogDist).sub (ctx.newDF.cell nrow colLogDist)).absV).toQ

/-- The candidate pool for one new defect: old rows (with their ids) not yet
matched whose absolute log-distance difference is within tolerance —
the boolean mask of the source.  (The anomaly-type equality conjunct is
commented out in the source and therefore absent here.) -/
def poolOf (ctx : Ctx) (matchedOld : List ℕ) (nrow : List Val) : List (ℕ × List Val) :=
  (idxFrom 0 ctx.oldDF.rows).filter fun p =>
    (!(matchedOld.contains p.1)) &&
      (((ctx.oldDF.cell p.2 colLogDist).sub (ctx.newDF.cell nrow colLogDist)).absV).leQ ctx.tol

/-- `Series.idxmin`: the first element attaining the minimal key, found by a
left fold that replaces the current best only on a strict decrease. -/
def idxminFold (f : α → ℚ) : List α → Option α
  | [] => none
  | x :: xs => some (xs.foldl (fun b y => if f y < f b then y else b) x)

/-- The candidate the engine matches a new row with: `idxmin` over the
distance differences of the pool. -/
def bestCandidate (ctx : Ctx) (matchedOld : List ℕ) (nrow : List Val) : Option (ℕ × List Val) :=
  idxminFold (fun p => diffOf ctx nrow p.2) (poolOf ctx matchedOld nrow)

/-- Build the `match_data` record of the source for one matched pair. -/
def mkMatch (ctx : Ctx) (nid : ℕ) (nrow : List Val) (oid : ℕ) (orow : List Val) : MatchRow :=
  let growth :=
    if ctx.calculate_growth && ctx.has_depth_data then
      let old_depth := ctx.oldDF.cell orow colDepth
      let new_depth := ctx.newDF.cell nrow colDepth
      let mm :=
        if ctx.has_wt_data then
          let old_wt := ctx.oldDF.cell orow colWt
          let new_wt := ctx.newDF.cell nrow colWt
          let avg_wt := (old_wt.add new_wt).divC 2
          let old_depth_mm := (old_depth.mul avg_wt).divC 100
          let new_depth_mm := (new_depth.mul avg_wt).divC 100
          some { old_depth_mm := old_depth_mm
                 new_depth_mm := new_depth_mm
                 depth_change_mm := new_depth_mm.sub old_depth_mm
                 growth_rate_mm_per_year :=
                   (new_depth_mm.sub old_depth_mm).divC (ctx.year_diff : ℚ) }
        else none
      some { old_depth_pct := old_depth
             new_depth_pct := new_depth
             depth_change_pct := new_depth.sub old_depth
             growth_rate_pct_per_year := (new_depth.sub old_depth).divC (ctx.year_diff : ℚ)
             is_negative_growth := (new_depth.sub old_depth).ltZeroB
             mm := mm }
    else none
  { new_defect_id := nid
    old_defect_id := oid
    distance_diff := diffOf ctx nrow orow
    log_dist := ctx.newDF.cell nrow colLogDist
    old_log_dist := ctx.oldDF.cell orow colLogDist
    defect_type := ctx.newDF.cell nrow colAnomaly
    growth := growth }

/-- The matching loop of the source (`for _, new_defect in new_df.iterrows()`),
processing the id-tagged new rows in table order.  Returns the match list in
order, the list of matched new ids, and the final matched-old set (the
`matched_new` set is never read inside the loop in the source, so it is not
threaded). -/
def matchLoop (ctx : Ctx) : List (ℕ × List Val) → List ℕ → List MatchRow × List ℕ × List ℕ
  | [], matchedOld => ([], [], matchedOld)
  | (nid, nrow) :: rest, matchedOld =>
    match bestCandidate ctx matchedOld nrow with
    | none => matchLoop ctx rest matchedOld
    | some (oid, orow) =>
      let r := matchLoop ctx rest (oid :: matchedOld)
      (mkMatch ctx nid nrow oid orow :: r.1, nid :: r.2.1, r.2.2)

/-- The locals of `compare_defects` (growth eligibility, year delta, data
availability flags, tolerance and both frames) packaged as a context, shared
between the engine and the claim-side matcher so that both are instantiated
at the same inputs. -/
def engineCtx (old_defects_df new_defects_df : DF)
    (old_year new_year : Option ℤ) (distance_tolerance : ℚ) : Ctx :=
  { oldDF := old_defects_df
    newDF := new_defects_df
    tol := distance_tolerance
    calculate_growth :=
      match old_year, new_year with
      | some o, some n => decide (o < n)
      | _, _ => false
    year_diff :=
      match old_year, new_year with
      | some o, some n => n - o
      | _, _ => 0
    has_depth_data := old_defects_df.hasCol colDepth && new_defects_df.hasCol colDepth
    has_wt_data := old_defects_df.hasCol colWt && new_defects_df.hasCol colWt }

/-- The subset of the result dictionary of `compare_defects` that this
development reasons about. -/
structure CompareResult where
  matches_df : List MatchRow
  new_defects : List (ℕ × List Val)
  common_defects_count : ℕ
  new_defects_count : ℕ
  total_defects : ℕ
  pct_common : ℚ
  pct_new : ℚ
  has_depth_data : Bool
  has_wt_data : Bool
  calculate_growth : Bool
deriving DecidableEq, Repr

/-- Shallow embedding of `multi_year_analysis.compare_defects`.  The two
input frames are used by value (the source copies them on entry; the
heap-level frame property is treated separately by `compare_defects_prog`).
Raising `ValueError(f"Missing column: {col}")` is modelled by
`Except.error`. -/
def compare_defects (old_defects_df new_defects_df : DF)
    (old_year new_year : Option ℤ) (distance_tolerance : ℚ) :
    Except String CompareResult :=
  let ctx := engineCtx old_defects_df new_defects_df old_year new_year distance_tolerance
  if !(old_defects_df.hasCol colLogDist && new_defects_df.hasCol colLogDist) then
    .error ("Missing column: " ++ colLogDist)
  else if !(old_defects_df.hasCol colAnomaly && new_defects_df.hasCol colAnomaly) then
    .error ("Missing column: " ++ colAnomaly)
  else
    let r := matchLoop ctx (idxFrom 0 new_defects_df.rows) []
    let ms := r.1
    let matchedNew := r.2.1
    let new_defects :=
      (idxFrom 0 new_defects_df.rows).filter fun p => !(matchedNew.contains p.1)
    let total := new_defects_df.rows.length
    let common := ms.length
    let new_cnt := new_defects.length
    .ok { matches_df := ms
          new_defects := new_defects
          common_defects_count := common
          new_defects_count := new_cnt
          total_defects := total
          pct_common := if total = 0 then 0 else (common : ℚ) / total * 100
          pct_new := if total = 0 then 0 else (new_cnt : ℚ) / total * 100
          has_depth_data := ctx.has_depth_data
          has_wt_data := ctx.has_wt_data
          calculate_growth := ctx.calculate_growth }

/-- The (old id, new id) pairs of the matches of a comparison result. -/
def matchPairs (r : Except String CompareResult) : List (ℕ × ℕ) :=
  match r with
  | .ok c => c.matches_df.map fun m => (m.old_defect_id, m.new_defect_id)
  | .error _ => []

/-- The `new_defects_count` of a comparison result (0 on the error path). -/
def newCount (r : Except String CompareResult) : ℕ :=
  match r with
  | .ok c => c.new_defects_count
  | .error _ => 0

/-! ## Clock-position codec (`utils.py`) -/

/-- Python `%` with a positive modulus on reals: `a - b * floor(a / b)`. -/
def pyFloorMod (a b : ℚ) : ℚ := a - b * ⌊a / b⌋

/-- Python `int()` on a float: truncation toward zero. -/
def ratTrunc (q : ℚ) : ℤ := if 0 ≤ q then ⌊q⌋ else ⌈q⌉

/-- Python `f"{n:02d}"`: left pad with a zero to width two. -/
def pad2 (n : ℤ) : String :=
  if 0 ≤ n ∧ n < 10 then "0" ++ toString n else toString n

/-- Python one-argument `round()`: round half to even. -/
def roundHalfEven (q : ℚ) : ℤ :=
  let f := ⌊q⌋
  let r := q - f
  if r < 1/2 then f else if 1/2 < r then f + 1 else if f % 2 = 0 then f else f + 1

/-- Shallow embedding of `utils.float_to_clock`: treats the input as a
fraction of a 24-hour day; `none` models NaN/None input. -/
def float_to_clock (time_float : Option ℚ) : Option String :=
  match time_float with
  | none => none
  | some t =>
    let total_minutes := t * 24 * 60
    let hours := ⌊total_minutes / 60⌋
    let minutes := roundHalfEven (pyFloorMod total_minutes 60)
    some (pad2 hours ++ ":" ++ pad2 minutes)

/-- Shallow embedding of `utils.parse_clock`: splits on `":"` and parses two
integers; any failure (including a `none` input, which raises inside the
`try`) returns the NaN sentinel, modelled as `none`. -/
def parse_clock (clock_str : Option String) : Option ℚ :=
  match clock_str with
  | none => none
  | some s =>
    match s.splitOn ":" with
    | [hs, ms] =>
      match hs.toInt?, ms.toInt? with
      | some h, some m => some ((h : ℚ) + (m : ℚ) / 60)
      | _, _ => none
    | _ => none

/-- Shallow embedding of `utils.decimal_to_clock_str`.  The result is an
optional string because the Python function could in principle return
`None`; in fact every path returns a string, and the NaN/None input path
returns the literal `"Unknown"`. -/
def decimal_to_clock_str (decimal_hours : Option ℚ) : Option String :=
  match decimal_hours with
  | none => some "Unknown"
  | some d0 =>
    let d :=
      if d0 < 1 then d0 + 12
      else if d0 > 12 then
        let m := pyFloorMod d0 12
        if m = 0 then 12 else m
      else d0
    let hours := ratTrunc d
    let minutes := ratTrunc ((d - hours) * 60)
    some (toString hours ++ ":" ++ pad2 minutes)

/-! ## Record splitter (`data_processing.process_pipeline_data`, defects side)

A raw survey row is modelled after the empty-string normalisation and the
`pd.to_numeric(..., errors='coerce')` step of the source: the numeric cells
relevant to the claims are optional rationals (`none` models NaN), and
`payload` stands for the contents of all remaining columns of the row. -/

/-- One raw survey row, post numeric coercion. -/
structure RawRow where
  log_dist : Option ℚ
  joint_number : Option ℚ
  length_mm : Option ℚ
  width_mm : Option ℚ
  payload : String
deriving DecidableEq, Repr

/-- The fields of a raw row other than `joint_number` (the only field the
forward fill rewrites). -/
def RawRow.core (r : RawRow) : Option ℚ × Option ℚ × Option ℚ × String :=
  (r.log_dist, r.length_mm, r.width_mm, r.payload)

/-- Ascending comparison on log distance with missing values last, the key
order of `df.sort_values('log dist. [m]')`. -/
def leDistOpt : Option ℚ → Option ℚ → Bool
  | some a, some b => a ≤ b
  | some _, none => true
  | none, some _ => false
  | none, none => true

/-- Row comparison by log distance. -/
def RawRow.leDist (a b : RawRow) : Bool := leDistOpt a.log_dist b.log_dist

/-- `df.sort_values('log dist. [m]')`: sort the rows ascending by log
distance (missing distances last).  The source's sort leaves the relative
order of equal keys unspecified; any sort by this key is a faithful model,
and an insertion sort is used here. -/
def sortRows (rows : List RawRow) : List RawRow :=
  rows.insertionSort fun a b => RawRow.leDist a b = true

/-- `df['joint number'].fillna(method='ffill')`: propagate the last present
joint number forward, starting from `last`. -/
def ffill (last : Option ℚ) : List RawRow → List RawRow
  | [] => []
  | r :: rs =>
    let j := match r.joint_number with
      | some v => some v
      | none => last
    { r with joint_number := j } :: ffill j rs

/-- The defect-row selection predicate of the source: both `length [mm]`
and `width [mm]` are present. -/
def isDefect (r : RawRow) : Bool := r.length_mm.isSome && r.width_mm.isSome

/-- The defects table produced by `process_pipeline_data`: sort by log
distance, forward fill joint numbers, then keep the rows with both length
and width present.  (The joints table and the column projection of the
source do not affect the stated claims and are not modelled.) -/
def process_pipeline_defects (rows : List RawRow) : List RawRow :=
  (ffill none (sortRows rows)).filter isDefect

/-- The forward-fill value after consuming `l`: the joint number of the last
row of `l` that carries one, if any. -/
def lastJoint (l : List RawRow) : Option ℚ :=
  l.foldl (fun a r => match r.joint_number with | some v => some v | none => a) none

/-! ## Heap-level view of `compare_defects` (for the frame property)

Python dataframes are mutable objects; `compare_defects` begins with
`old_df = old_defects_df.copy()` / `new_df = new_defects_df.copy()` and all
later writes (the `defect_id` column assignments) target the copies.  To
state that the caller's frames are untouched, the object store is made
explicit: a heap of dataframe values addressed by allocation index. -/

/-- A heap of dataframe objects. -/
abbrev Heap := List DF

/-- Dereference an object index. -/
def heapRead (h : Heap) (i : ℕ) : DF := (h.get? i).getD ⟨[], []⟩

/-- `df.copy()`: allocate a fresh object holding a value. -/
def heapAlloc (h : Heap) (d : DF) : Heap × ℕ := (h ++ [d], h.length)

/-- In-place update of the object at an index. -/
def heapWrite (h : Heap) (i : ℕ) (d : DF) : Heap := h.set i d

/-- `df['defect_id'] = range(len(df))`: append the sequential id column. -/
def addDefectId (d : DF) : DF :=
  ⟨d.cols ++ ["defect_id"], (idxFrom 0 d.rows).map fun p => p.2 ++ [Val.num p.1]⟩

/-- The heap-level body of `compare_defects`: copy both argument objects,
mutate only the copies (the `defect_id` assignments), and delegate the
(pure, value-level) matching computation to `compare_defects`. -/
def compare_defects_prog (h : Heap) (pold pnew : ℕ)
    (old_year new_year : Option ℤ) (distance_tolerance : ℚ) :
    Heap × Except String CompareResult :=
  let a1 := heapAlloc h (heapRead h pold)
  let h1 := a1.1
  let iold := a1.2
  let a2 := heapAlloc h1 (heapRead h1 pnew)
  let h2 := a2.1
  let inew := a2.2
  let h3 := heapWrite h2 iold (addDefectId (heapRead h2 iold))
  let h4 := heapWrite h3 inew (addDefectId (heapRead h3 inew))
  (h4, compare_defects (heapRead h pold) (heapRead h pnew) old_year new_year distance_tolerance)

/-! ## Claim-side greedy matcher

An independent rendering of the matching algorithm as the specification
words it, to be proved equal to the engine's matcher: process new defects
in table-row order; the pool is the set of old defects not yet consumed
whose absolute log-distance difference is within tolerance; select the pool
element of minimum absolute difference, ties broken by the first row in the
old table's index order; a consumed old defect never re-enters a pool. -/

/-- Claim-side candidate pool: old defects not yet consumed, within
tolerance of the new row. -/
def claimPool (ctx : Ctx) (consumed : List ℕ) (nrow : List Val) : List (ℕ × List Val) :=
  (idxFrom 0 ctx.oldDF.rows).filter fun p =>
    (!(consumed.contains p.1)) &&
      (((ctx.oldDF.cell p.2 colLogDist).sub (ctx.newDF.cell nrow colLogDist)).absV).leQ ctx.tol

/-- Claim-side selection: the first pool element (the pool is listed in the
old table's index order) whose distance difference is a minimum over the
whole pool. -/
def claimSelect (ctx : Ctx) (nrow : List Val) (pool : List (ℕ × List Val)) :
    Option (ℕ × List Val) :=
  pool.find? fun p => decide (∀ q ∈ pool, diffOf ctx nrow p.2 ≤ diffOf ctx nrow q.2)

/-- Claim-side greedy pass over the id-tagged new rows. -/
def greedySpec (ctx : Ctx) : List (ℕ × List Val) → List ℕ → List MatchRow
  | [], _ => []
  | (nid, nrow) :: rest, consumed =>
    match claimSelect ctx nrow (claimPool ctx consumed nrow) with
    | none => greedySpec ctx rest consumed
    | some (oid, orow) => mkMatch ctx nid nrow oid orow :: greedySpec ctx rest (oid :: consumed)

/-- The full claim-side match list for a pair of tables. -/
def greedySpecMatches (old_defects_df new_defects_df : DF)
    (old_year new_year : Option ℤ) (distance_tolerance : ℚ) : List MatchRow :=
  greedySpec (engineCtx old_defects_df new_defects_df old_year new_year distance_tolerance)
    (idxFrom 0 new_defects_df.rows) []

/-! ## Concrete fixtures (used by witnesses and counterexamples) -/

/-- A one-row old-survey table with distance, type, depth and wall data. -/
def dfOldEx : DF :=
  ⟨[colLogDist, colAnomaly, colDepth, colWt],
   [[Val.num 10, Val.str "ML", Val.num 20, Val.num 10]]⟩

/-- A one-row new-survey table with distance, type, depth and wall data. -/
def dfNewEx : DF :=
  ⟨[colLogDist, colAnomaly, colDepth, colWt],
   [[Val.num 10, Val.str "ML", Val.num 30, Val.num 10]]⟩

/-- A two-row old table and a two-row new table exercising the greedy
consumption order (both new rows are nearest to the same old row). -/
def dfOldEx2 : DF :=
  ⟨[colLogDist, colAnomaly],
   [[Val.num 10, Val.str "ML"], [Val.num (21/2), Val.str "ML"]]⟩

/-- New table for the two-row fixture. -/
def dfNewEx2 : DF :=
  ⟨[colLogDist, colAnomaly],
   [[Val.num (101/10), Val.str "ML"], [Val.num 10, Val.str "ML"]]⟩

/-- The all-empty comparison result, used as the default of `getOk`. -/
def emptyResult : CompareResult :=
  ⟨[], [], 0, 0, 0, 0, 0, false, false, false⟩

/-- Extract the payload of a successful comparison (default on error). -/
def getOk (e : Except String CompareResult) (d : CompareResult) : CompareResult :=
  match e with
  | .ok c => c
  | .error _ => d

/-- The first match produced on the one-row growth fixture with years
2015 and 2017. -/
def firstMatchEx : MatchRow :=
  ((getOk (compare_defects dfOldEx dfNewEx (some 2015) (some 2017) (1/10))
      emptyResult).matches_df.head?).getD
    ⟨0, 0, 0, Val.nan, Val.nan, Val.nan, none⟩

/-- The growth block of `firstMatchEx`. -/
def firstGrowthEx : GrowthData :=
  firstMatchEx.growth.getD ⟨Val.nan, Val.nan, Val.nan, Val.nan, false, none⟩

/-- The millimetre block of `firstGrowthEx`. -/
def firstMmEx : MmData :=
  firstGrowthEx.mm.getD ⟨Val.nan, Val.nan, Val.nan, Val.nan⟩

/-- A three-row raw survey fixture: one joint-marker row (no size data) and
two defect rows, deliberately out of distance order, one defect upstream of
the joint marker. -/
def rawRowsEx : List RawRow :=
  [⟨some 2, some 1, none, none, "J1"⟩,
   ⟨some 1, none, some 5, some 5, "D1"⟩,
   ⟨some 3, none, some 7, some 2, "D2"⟩]

/-- The clock conversion as the claim words it: wrap into (0,12] — values
less than or equal to 0 have 12 added, values greater than 12 are reduced
modulo 12 with an exact-zero result becoming 12, values already in (0,12]
unchanged — then floor to the hour and round the fractional remainder to
minutes. -/
def decimal_to_clock_claim (decimal_hours : Option ℚ) : Option String :=
  match decimal_hours with
  | none => none
  | some d0 =>
    let d :=
      if d0 ≤ 0 then d0 + 12
      else if d0 > 12 then
        let m := pyFloorMod d0 12
        if m = 0 then 12 else m
      else d0
    let hours := ⌊d⌋
    let minutes := roundHalfEven ((d - hours) * 60)
    some (toString hours ++ ":" ++ pad2 minutes)

/-- Render a wrapped clock value the way the code does: the hour is the
integer truncation and the minutes are the fractional remainder times 60,
truncated. -/
def clockRender (w : ℚ) : Option String :=
  some (toString (ratTrunc w) ++ ":" ++ pad2 (ratTrunc ((w - ratTrunc w) * 60)))

/-! ## Infrastructure lemmas -/

theorem mem_idxFrom {α : Type u} {l : List α} :
    ∀ {i j : ℕ} {a : α}, (j, a) ∈ idxFrom i l ↔ ∃ k, l.get? k = some a ∧ j = i + k := by
  induction l with
  | nil => intro i j a; simp [idxFrom]
  | cons x xs ih =>
    intro i j a
    simp only [idxFrom, List.mem_cons, ih, Prod.mk.injEq]
    constructor
    · rintro (⟨rfl, rfl⟩ | ⟨k, hk, rfl⟩)
      · exact ⟨0, by simp, by simp⟩
      · exact ⟨k + 1, by simpa using hk, by omega⟩
    · rintro ⟨k, hk, rfl⟩
      cases k with
      | zero => left; simp at hk; exact ⟨rfl, hk.symm⟩
      | succ k => right; exact ⟨k, by simpa using hk, by omega⟩

theorem idxFrom_fst_lower {α : Type u} {l : List α} {i : ℕ} {p : ℕ × α}
    (h : p ∈ idxFrom i l) : i ≤ p.1 := by
  obtain ⟨j, a⟩ := p
  obtain ⟨k, -, rfl⟩ := mem_idxFrom.mp h
  omega

theorem idxFrom_length {α : Type u} (l : List α) : ∀ i, (idxFrom i l).length = l.length := by
  induction l with
  | nil => intro i; rfl
  | cons x xs ih => intro i; simp [idxFrom, ih]

theorem pairwise_fst_idxFrom {α : Type u} (l : List α) :
    ∀ i, (idxFrom i l).Pairwise (fun p q => p.1 < q.1) := by
  induction l with
  | nil => intro i; simp [idxFrom]
  | cons x xs ih =>
    intro i
    refine List.Pairwise.cons ?_ (ih (i + 1))
    intro q hq
    have := idxFrom_fst_lower hq
    simpa using by omega

theorem nodup_fst_idxFrom {α : Type u} (l : List α) (i : ℕ) :
    ((idxFrom i l).map Prod.fst).Nodup := by
  have h := pairwise_fst_idxFrom l i
  have : (idxFrom i l).Pairwise (fun p q => Prod.fst p ≠ Prod.fst q) :=
    h.imp (fun hlt => Nat.ne_of_lt hlt)
  exact (List.pairwise_map).mpr this

theorem contains_iff_mem {a : ℕ} {l : List ℕ} : l.contains a = true ↔ a ∈ l := by
  simp [List.contains]

theorem idxminFold_mem {α : Type u} (f : α → ℚ) {l : List α} {m : α}
    (h : idxminFold f l = some m) : m ∈ l := by
  match l, h with
  | x :: xs, h =>
    have aux : ∀ (ys : List α) (b : α),
        ys.foldl (fun b y => if f y < f b then y else b) b = b ∨
        ys.foldl (fun b y => if f y < f b then y else b) b ∈ ys := by
      intro ys
      induction ys with
      | nil => intro b; left; rfl
      | cons y ys ih =>
        intro b
        simp only [List.foldl_cons]
        rcases ih (if f y < f b then y else b) with h' | h'
        · rw [h']
          by_cases hc : f y < f b
          · right; simp [hc]
          · left; simp [hc]
        · right; exact List.mem_cons_of_mem _ h'
    simp only [idxminFold, Option.some.injEq] at h
    rcases aux xs x with h' | h'
    · rw [h'] at h; subst h; exact List.mem_cons_self _ _
    · rw [h] at h'; exact List.mem_cons_of_mem _ h'

theorem bestCandidate_mem_pool {ctx : Ctx} {mo : List ℕ} {nrow : List Val} {p : ℕ × List Val}
    (h : bestCandidate ctx mo nrow = some p) : p ∈ poolOf ctx mo nrow :=
  idxminFold_mem _ h

theorem pool_spec {ctx : Ctx} {mo : List ℕ} {nrow : List Val} {p : ℕ × List Val}
    (h : p ∈ poolOf ctx mo nrow) :
    p ∈ idxFrom 0 ctx.oldDF.rows ∧ p.1 ∉ mo ∧
      (((ctx.oldDF.cell p.2 colLogDist).sub (ctx.newDF.cell nrow colLogDist)).absV).leQ ctx.tol
        = true := by
  rw [poolOf, List.mem_filter] at h
  refine ⟨h.1, ?_, ?_⟩
  · have := h.2
    simp only [Bool.and_eq_true, Bool.not_eq_true'] at this
    intro hmem
    rw [(contains_iff_mem).mpr hmem] at this
    exact absurd this.1 (by simp)
  · have := h.2
    simp only [Bool.and_eq_true] at this
    exact this.2

theorem matchLoop_length (ctx : Ctx) :
    ∀ (todo : List (ℕ × List Val)) (mo : List ℕ),
      (matchLoop ctx todo mo).1.length = (matchLoop ctx todo mo).2.1.length := by
  intro todo
  induction todo with
  | nil => intro mo; rfl
  | cons p rest ih =>
    intro mo
    obtain ⟨nid, nrow⟩ := p
    cases h : bestCandidate ctx mo nrow with
    | none => simp [matchLoop, h, ih mo]
    | some q =>
      obtain ⟨oid, orow⟩ := q
      simp [matchLoop, h, ih (oid :: mo)]

theorem matchLoop_matchedNew_sublist (ctx : Ctx) :
    ∀ (todo : List (ℕ × List Val)) (mo : List ℕ),
      List.Sublist (matchLoop ctx todo mo).2.1 (todo.map Prod.fst) := by
  intro todo
  induction todo with
  | nil => intro mo; simp [matchLoop]
  | cons p rest ih =>
    intro mo
    obtain ⟨nid, nrow⟩ := p
    cases h : bestCandidate ctx mo nrow with
    | none =>
      simp only [matchLoop, h, List.map_cons]
      exact (ih mo).cons nid
    | some q =>
      obtain ⟨oid, orow⟩ := q
      simp only [matchLoop, h, List.map_cons]
      exact (ih (oid :: mo)).cons₂ nid

theorem matchLoop_newIds (ctx : Ctx) :
    ∀ (todo : List (ℕ × List Val)) (mo : List ℕ),
      (matchLoop ctx todo mo).1.map MatchRow.new_defect_id = (matchLoop ctx todo mo).2.1 := by
  intro todo
  induction todo with
  | nil => intro mo; rfl
  | cons p rest ih =>
    intro mo
    obtain ⟨nid, nrow⟩ := p
    cases h : bestCandidate ctx mo nrow with
    | none => simp [matchLoop, h, ih mo]
    | some q =>
      obtain ⟨oid, orow⟩ := q
      simp [matchLoop, h, ih (oid :: mo), mkMatch]

theorem matchLoop_oldIds (ctx : Ctx) :
    ∀ (todo : List (ℕ × List Val)) (mo : List ℕ),
      ((matchLoop ctx todo mo).1.map MatchRow.old_defect_id).Nodup ∧
      ∀ x ∈ (matchLoop ctx todo mo).1.map MatchRow.old_defect_id, x ∉ mo := by
  intro todo
  induction todo with
  | nil => intro mo; simp [matchLoop]
  | cons p rest ih =>
    intro mo
    obtain ⟨nid, nrow⟩ := p
    cases h : bestCandidate ctx mo nrow with
    | none => simpa [matchLoop, h] using ih mo
    | some q =>
      obtain ⟨oid, orow⟩ := q
      have hmem := pool_spec (bestCandidate_mem_pool h)
      have hrec := ih (oid :: mo)
      simp only [matchLoop, h, List.map_cons, List.nodup_cons, mkMatch]
      constructor
      · constructor
        · intro hc
          exact (hrec.2 oid hc) (List.mem_cons_self oid mo)
        · exact hrec.1
      · intro x hx
        rcases List.mem_cons.mp hx with rfl | hx'
        · exact hmem.2.1
        · intro hxmo
          exact (hrec.2 x hx') (List.mem_cons_of_mem _ hxmo)

theorem contains_cons_ne {a x : ℕ} {M : List ℕ} (hne : x ≠ a) :
    (a :: M).contains x = M.contains x := by
  simp [List.contains_cons, hne]

theorem length_filter_not_sublist :
    ∀ {L M : List ℕ}, List.Sublist M L → L.Nodup →
      (L.filter fun x => !(M.contains x)).length = L.length - M.length := by
  intro L M h
  induction h with
  | slnil => intro _; rfl
  | @cons M L a h ih =>
    intro hnd
    have hnd' := (List.nodup_cons.mp hnd).2
    have ha : a ∉ L := (List.nodup_cons.mp hnd).1
    have hamem : a ∉ M := fun hm => ha (h.subset hm)
    have hpa : (!(List.contains M a)) = true := by
      simp only [Bool.not_eq_true']
      rw [← Bool.not_eq_true]
      intro hc
      exact hamem (contains_iff_mem.mp hc)
    rw [List.filter_cons, if_pos hpa]
    have hle := h.length_le
    simp only [List.length_cons, ih hnd']
    omega
  | @cons₂ M L a h ih =>
    intro hnd
    have hnd' := (List.nodup_cons.mp hnd).2
    have ha : a ∉ L := (List.nodup_cons.mp hnd).1
    have hpa : (!(List.contains (a :: M) a)) = false := by
      have hc : (a :: M).contains a = true := contains_iff_mem.mpr (List.mem_cons_self _ _)
      rw [hc]
      rfl
    rw [List.filter_cons, if_neg (by simp [hpa])]
    have hcongr : ∀ x ∈ L, (!((a :: M).contains x)) = (!(List.contains M x)) := by
      intro x hx
      have hxa : x ≠ a := fun hxa => ha (hxa ▸ hx)
      rw [contains_cons_ne hxa]
    rw [List.filter_congr hcongr, ih hnd']
    simp only [List.length_cons]
    omega

theorem length_filter_fst {M : List ℕ} :
    ∀ (todo : List (ℕ × List Val)),
      (todo.filter fun p => !(M.contains p.1)).length
        = ((todo.map Prod.fst).filter fun x => !(M.contains x)).length := by
  intro todo
  induction todo with
  | nil => rfl
  | cons p rest ih =>
    by_cases hm : p.1 ∈ M
    · simp [List.filter_cons, hm] at ih ⊢
      exact ih
    · simp [List.filter_cons, hm] at ih ⊢
      exact ih

theorem counts_ok (ctx : Ctx) (rows : List (List Val)) :
    (matchLoop ctx (idxFrom 0 rows) []).1.length
      + ((idxFrom 0 rows).filter
          fun p => !((matchLoop ctx (idxFrom 0 rows) []).2.1.contains p.1)).length
      = rows.length := by
  have h1 := matchLoop_length ctx (idxFrom 0 rows) []
  have h2 := matchLoop_matchedNew_sublist ctx (idxFrom 0 rows) []
  have h3 := nodup_fst_idxFrom rows 0
  have h4 := length_filter_not_sublist h2 h3
  have h5 := length_filter_fst (M := (matchLoop ctx (idxFrom 0 rows) []).2.1) (idxFrom 0 rows)
  have h6 := h2.length_le
  have h7 : ((idxFrom 0 rows).map Prod.fst).length = rows.length := by
    rw [List.length_map, idxFrom_length]
  omega

/-- C3: for every accepted input, `common_defects_count + new_defects_count`
equals `total_defects`, and `total_defects` is the row count of the
new-survey table. -/
theorem c3_count_conservation (old_df new_df : DF) (oy ny : Option ℤ) (tol : ℚ)
    (r : CompareResult) (h : compare_defects old_df new_df oy ny tol = .ok r) :
    r.common_defects_count + r.new_defects_count = r.total_defects ∧
      r.total_defects = new_df.rows.length := by
  simp only [compare_defects] at h
  split at h
  · exact Except.noConfusion h
  · split at h
    · exact Except.noConfusion h
    · rw [Except.ok.injEq] at h
      subst h
      exact ⟨counts_ok _ _, rfl⟩

/-- Witness for C3 at a concrete input. -/
theorem c3_count_conservation_witness :
    (getOk (compare_defects dfOldEx dfNewEx none none (1/10)) emptyResult).common_defects_count
        + (getOk (compare_defects dfOldEx dfNewEx none none (1/10)) emptyResult).new_defects_count
      = (getOk (compare_defects dfOldEx dfNewEx none none (1/10)) emptyResult).total_defects ∧
    (getOk (compare_defects dfOldEx dfNewEx none none (1/10)) emptyResult).total_defects
      = dfNewEx.rows.length :=
  c3_count_conservation dfOldEx dfNewEx none none (1/10) _ rfl

/-- C2: in the returned matches table no old-defect id and no new-defect id
appears in more than one match (the pairing is 1:1). -/
theorem c2_matching_one_to_one (old_df new_df : DF) (oy ny : Option ℤ) (tol : ℚ)
    (r : CompareResult) (h : compare_defects old_df new_df oy ny tol = .ok r) :
    (r.matches_df.map MatchRow.old_defect_id).Nodup ∧
      (r.matches_df.map MatchRow.new_defect_id).Nodup := by
  simp only [compare_defects] at h
  split at h
  · exact Except.noConfusion h
  · split at h
    · exact Except.noConfusion h
    · rw [Except.ok.injEq] at h
      subst h
      constructor
      · exact (matchLoop_oldIds _ _ _).1
      · rw [matchLoop_newIds]
        exact (nodup_fst_idxFrom _ _).sublist (matchLoop_matchedNew_sublist _ _ _)

/-- Witness for C2 at a concrete input. -/
theorem c2_matching_one_to_one_witness :
    ((getOk (compare_defects dfOldEx2 dfNewEx2 none none (1/10)) emptyResult).matches_df.map
        MatchRow.old_defect_id).Nodup ∧
    ((getOk (compare_defects dfOldEx2 dfNewEx2 none none (1/10)) emptyResult).matches_df.map
        MatchRow.new_defect_id).Nodup :=
  c2_matching_one_to_one dfOldEx2 dfNewEx2 none none (1/10) _ rfl

/-- C6: if either input table lacks the log-distance column or the
anomaly-type column, `compare_defects` fails with the error naming the
missing column; the failure is determined by the column sets alone (the
rows are arbitrary), and on that path no result — in particular no match —
is produced. -/
theorem c6_missing_column_error (old_df new_df : DF) (oy ny : Option ℤ) (tol : ℚ) :
    (¬(old_df.hasCol colLogDist = true ∧ new_df.hasCol colLogDist = true) →
      compare_defects old_df new_df oy ny tol = .error ("Missing column: " ++ colLogDist)) ∧
    (old_df.hasCol colLogDist = true → new_df.hasCol colLogDist = true →
      ¬(old_df.hasCol colAnomaly = true ∧ new_df.hasCol colAnomaly = true) →
      compare_defects old_df new_df oy ny tol = .error ("Missing column: " ++ colAnomaly)) ∧
    ((¬(old_df.hasCol colLogDist = true ∧ new_df.hasCol colLogDist = true) ∨
      ¬(old_df.hasCol colAnomaly = true ∧ new_df.hasCol colAnomaly = true)) →
      ∀ r : CompareResult, compare_defects old_df new_df oy ny tol ≠ .ok r) := by
  refine ⟨?_, ?_, ?_⟩
  · intro h1
    have hc : (!(old_df.hasCol colLogDist && new_df.hasCol colLogDist)) = true := by
      revert h1
      cases old_df.hasCol colLogDist <;> cases new_df.hasCol colLogDist <;> simp
    simp [compare_defects, hc]
  · intro h1 h2 h3
    have hc : (!(old_df.hasCol colAnomaly && new_df.hasCol colAnomaly)) = true := by
      revert h3
      cases old_df.hasCol colAnomaly <;> cases new_df.hasCol colAnomaly <;> simp
    simp [compare_defects, h1, h2, hc]
  · intro hor r
    rcases hor with h1 | h3
    · have hc : (!(old_df.hasCol colLogDist && new_df.hasCol colLogDist)) = true := by
        revert h1
        cases old_df.hasCol colLogDist <;> cases new_df.hasCol colLogDist <;> simp
      simp [compare_defects, hc]
    · by_cases h1 : old_df.hasCol colLogDist = true ∧ new_df.hasCol colLogDist = true
      · have hc : (!(old_df.hasCol colAnomaly && new_df.hasCol colAnomaly)) = true := by
          revert h3
          cases old_df.hasCol colAnomaly <;> cases new_df.hasCol colAnomaly <;> simp
        simp [compare_defects, h1.1, h1.2, hc]
      · have hc : (!(old_df.hasCol colLogDist && new_df.hasCol colLogDist)) = true := by
          revert h1
          cases old_df.hasCol colLogDist <;> cases new_df.hasCol colLogDist <;> simp
        simp [compare_defects, hc]

/-- Witness for C6 at a concrete input: a table pair missing the
log-distance column. -/
theorem c6_missing_column_error_witness :
    compare_defects ⟨[colAnomaly], [[Val.str "ML"]]⟩ ⟨[colAnomaly], [[Val.str "PIT"]]⟩
        none none 0
      = .error ("Missing column: " ++ colLogDist) :=
  (c6_missing_column_error _ _ _ _ _).1 (by decide)

theorem find?_congr_pred {α : Type u} {p q : α → Bool} :
    ∀ l : List α, (∀ a ∈ l, p a = q a) → l.find? p = l.find? q := by
  intro l
  induction l with
  | nil => intro _; rfl
  | cons x xs ih =>
    intro h
    have hx := h x (List.mem_cons_self _ _)
    cases hq : q x with
    | true =>
      rw [List.find?_cons_of_pos _ (hx.trans hq), List.find?_cons_of_pos _ hq]
    | false =>
      rw [List.find?_cons_of_neg _ (by rw [hx, hq]; exact Bool.false_ne_true),
        List.find?_cons_of_neg _ (by rw [hq]; exact Bool.false_ne_true)]
      exact ih fun a ha => h a (List.mem_cons_of_mem _ ha)

theorem idxminFold_eq_find_min {α : Type u} (f : α → ℚ) (xs : List α) :
    ∀ x : α,
      idxminFold f (x :: xs)
        = (x :: xs).find? fun z => decide (∀ y ∈ x :: xs, f z ≤ f y) := by
  induction xs with
  | nil =>
    intro x
    rw [List.find?_cons_of_pos _ (by simp)]
    rfl
  | cons y ys ih =>
    intro x
    by_cases hxy : f y < f x
    · have hL : idxminFold f (x :: y :: ys) = idxminFold f (y :: ys) := by
        simp [idxminFold, hxy]
      rw [hL, ih y]
      have hx : (decide (∀ w ∈ x :: y :: ys, f x ≤ f w)) = false := by
        simp only [decide_eq_false_iff_not]
        intro hall
        exact absurd (hall y (by simp)) (not_le.mpr hxy)
      have e1 : List.find? (fun z => decide (∀ w ∈ x :: y :: ys, f z ≤ f w)) (x :: y :: ys)
          = List.find? (fun z => decide (∀ w ∈ x :: y :: ys, f z ≤ f w)) (y :: ys) :=
        List.find?_cons_of_neg _ (by rw [hx]; exact Bool.false_ne_true)
      have e2 : List.find? (fun z => decide (∀ w ∈ x :: y :: ys, f z ≤ f w)) (y :: ys)
          = List.find? (fun z => decide (∀ w ∈ y :: ys, f z ≤ f w)) (y :: ys) := by
        refine find?_congr_pred (y :: ys) ?_
        intro z hz
        rw [decide_eq_decide]
        constructor
        · intro hall w hw
          exact hall w (List.mem_cons_of_mem _ hw)
        · intro hall w hw
          rcases List.mem_cons.mp hw with rfl | hw'
          · exact le_trans (hall y (List.mem_cons_self _ _)) (le_of_lt hxy)
          · exact hall w hw'
      rw [e1, e2]
    · have hxy' : f x ≤ f y := not_lt.mp hxy
      have hL : idxminFold f (x :: y :: ys) = idxminFold f (x :: ys) := by
        simp [idxminFold, hxy]
      rw [hL, ih x]
      by_cases hA : ∀ w ∈ x :: ys, f x ≤ f w
      · have hfull : ∀ w ∈ x :: y :: ys, f x ≤ f w := by
          intro w hw
          rcases List.mem_cons.mp hw with rfl | hw'
          · exact le_refl _
          · rcases List.mem_cons.mp hw' with rfl | hw''
            · exact hxy'
            · exact hA w (List.mem_cons_of_mem _ hw'')
        have e1 : List.find? (fun z => decide (∀ w ∈ x :: ys, f z ≤ f w)) (x :: ys)
            = some x := List.find?_cons_of_pos _ (decide_eq_true hA)
        have e2 : List.find? (fun z => decide (∀ w ∈ x :: y :: ys, f z ≤ f w)) (x :: y :: ys)
            = some x := List.find?_cons_of_pos _ (decide_eq_true hfull)
        rw [e1, e2]
      · have hA2 := hA
        push_neg at hA2
        obtain ⟨w0, hw0, hw0lt⟩ := hA2
        have hw0ys : w0 ∈ ys := by
          rcases List.mem_cons.mp hw0 with rfl | h'
          · exact absurd hw0lt (lt_irrefl _)
          · exact h'
        have hxfull : (decide (∀ w ∈ x :: y :: ys, f x ≤ f w)) = false := by
          simp only [decide_eq_false_iff_not]
          intro hall
          exact absurd (hall w0 (List.mem_cons_of_mem _ (List.mem_cons_of_mem _ hw0ys)))
            (not_le.mpr hw0lt)
        have hxsub : (decide (∀ w ∈ x :: ys, f x ≤ f w)) = false := by
          simp only [decide_eq_false_iff_not]
          exact hA
        have hyfull : (decide (∀ w ∈ x :: y :: ys, f y ≤ f w)) = false := by
          simp only [decide_eq_false_iff_not]
          intro hall
          have := hall w0 (List.mem_cons_of_mem _ (List.mem_cons_of_mem _ hw0ys))
          exact absurd this (not_le.mpr (lt_of_lt_of_le hw0lt hxy'))
        have e1 : List.find? (fun z => decide (∀ w ∈ x :: ys, f z ≤ f w)) (x :: ys)
            = List.find? (fun z => decide (∀ w ∈ x :: ys, f z ≤ f w)) ys :=
          List.find?_cons_of_neg _ (by rw [hxsub]; exact Bool.false_ne_true)
        have e2 : List.find? (fun z => decide (∀ w ∈ x :: y :: ys, f z ≤ f w)) (x :: y :: ys)
            = List.find? (fun z => decide (∀ w ∈ x :: y :: ys, f z ≤ f w)) (y :: ys) :=
          List.find?_cons_of_neg _ (by rw [hxfull]; exact Bool.false_ne_true)
        have e3 : List.find? (fun z => decide (∀ w ∈ x :: y :: ys, f z ≤ f w)) (y :: ys)
            = List.find? (fun z => decide (∀ w ∈ x :: y :: ys, f z ≤ f w)) ys :=
          List.find?_cons_of_neg _ (by rw [hyfull]; exact Bool.false_ne_true)
        have e4 : List.find? (fun z => decide (∀ w ∈ x :: y :: ys, f z ≤ f w)) ys
            = List.find? (fun z => decide (∀ w ∈ x :: ys, f z ≤ f w)) ys := by
          refine find?_congr_pred ys ?_
          intro z hz
          rw [decide_eq_decide]
          constructor
          · intro hall w hw
            rcases List.mem_cons.mp hw with rfl | hw'
            · exact hall w (List.mem_cons_self _ _)
            · exact hall w (List.mem_cons_of_mem _ (List.mem_cons_of_mem _ hw'))
          · intro hall w hw
            rcases List.mem_cons.mp hw with rfl | hw'
            · exact hall w (List.mem_cons_self _ _)
            · rcases List.mem_cons.mp hw' with rfl | hw''
              · exact le_trans (hall x (List.mem_cons_self _ _)) hxy'
              · exact hall w (List.mem_cons_of_mem _ hw'')
        rw [e1, e2, e3, e4]

theorem bestCandidate_eq_claimSelect (ctx : Ctx) (mo : List ℕ) (nrow : List Val) :
    bestCandidate ctx mo nrow = claimSelect ctx nrow (claimPool ctx mo nrow) := by
  have hpool : claimPool ctx mo nrow = poolOf ctx mo nrow := rfl
  rw [claimSelect, hpool, bestCandidate]
  cases hp : poolOf ctx mo nrow with
  | nil => rfl
  | cons x xs => exact idxminFold_eq_find_min _ xs x

theorem matchLoop_eq_greedySpec (ctx : Ctx) :
    ∀ (todo : List (ℕ × List Val)) (mo : List ℕ),
      (matchLoop ctx todo mo).1 = greedySpec ctx todo mo := by
  intro todo
  induction todo with
  | nil => intro mo; rfl
  | cons p rest ih =>
    intro mo
    obtain ⟨nid, nrow⟩ := p
    have hsel := (bestCandidate_eq_claimSelect ctx mo nrow).symm
    cases h : bestCandidate ctx mo nrow with
    | none =>
      rw [h] at hsel
      simp [matchLoop, greedySpec, h, hsel, ih mo]
    | some q =>
      obtain ⟨oid, orow⟩ := q
      rw [h] at hsel
      simp [matchLoop, greedySpec, h, hsel, ih (oid :: mo)]

/-- C1: the matches produced by the engine are exactly those of the
claim-side greedy algorithm: new defects processed in table-row order; for
each, the pool of not-yet-matched old defects within tolerance; the pool
element of minimum absolute distance difference selected, ties broken by
the first row in the old table's index order; consumed old defects never
rematched. -/
theorem c1_greedy_matching (old_df new_df : DF) (oy ny : Option ℤ) (tol : ℚ)
    (r : CompareResult) (h : compare_defects old_df new_df oy ny tol = .ok r) :
    r.matches_df = greedySpecMatches old_df new_df oy ny tol := by
  simp only [compare_defects] at h
  split at h
  · exact Except.noConfusion h
  · split at h
    · exact Except.noConfusion h
    · rw [Except.ok.injEq] at h
      subst h
      exact matchLoop_eq_greedySpec _ _ _

/-- Witness for C1 at a concrete input (two old rows, two new rows, greedy
consumption exercised). -/
theorem c1_greedy_matching_witness :
    (getOk (compare_defects dfOldEx2 dfNewEx2 none none (3/2)) emptyResult).matches_df
      = greedySpecMatches dfOldEx2 dfNewEx2 none none (3/2) :=
  c1_greedy_matching dfOldEx2 dfNewEx2 none none (3/2) _ rfl

/-- C4: the distance test is an inclusive bound.  With one old defect and
one new defect, an absolute log-distance difference equal to the tolerance
produces the match (old id 0, new id 0); a difference exceeding the
tolerance produces no match and reports the new defect as new. -/
theorem c4_tolerance_boundary_inclusive (d1 d2 tol : ℚ) (t1 t2 : String) :
    (|d1 - d2| = tol →
      matchPairs (compare_defects ⟨[colLogDist, colAnomaly], [[Val.num d1, Val.str t1]]⟩
          ⟨[colLogDist, colAnomaly], [[Val.num d2, Val.str t2]]⟩ none none tol) = [(0, 0)] ∧
      newCount (compare_defects ⟨[colLogDist, colAnomaly], [[Val.num d1, Val.str t1]]⟩
          ⟨[colLogDist, colAnomaly], [[Val.num d2, Val.str t2]]⟩ none none tol) = 0) ∧
    (|d1 - d2| > tol →
      matchPairs (compare_defects ⟨[colLogDist, colAnomaly], [[Val.num d1, Val.str t1]]⟩
          ⟨[colLogDist, colAnomaly], [[Val.num d2, Val.str t2]]⟩ none none tol) = [] ∧
      newCount (compare_defects ⟨[colLogDist, colAnomaly], [[Val.num d1, Val.str t1]]⟩
          ⟨[colLogDist, colAnomaly], [[Val.num d2, Val.str t2]]⟩ none none tol) = 1) := by
  constructor
  · intro h
    have hle : (decide (|d1 - d2| ≤ tol)) = true := decide_eq_true (le_of_eq h)
    simp [compare_defects, engineCtx, DF.hasCol, DF.cell, matchLoop, bestCandidate, poolOf,
      idxFrom, idxminFold, mkMatch, matchPairs, newCount, diffOf, Val.sub, Val.absV, Val.leQ,
      Val.toQ, hle]
  · intro h
    have hle : (decide (|d1 - d2| ≤ tol)) = false := decide_eq_false (not_le.mpr h)
    simp [compare_defects, engineCtx, DF.hasCol, DF.cell, matchLoop, bestCandidate, poolOf,
      idxFrom, idxminFold, mkMatch, matchPairs, newCount, diffOf, Val.sub, Val.absV, Val.leQ,
      Val.toQ, hle]

/-- Witness for C4 at concrete inputs: distance difference exactly the
tolerance (matched) and exceeding a smaller tolerance (unmatched). -/
theorem c4_tolerance_boundary_inclusive_witness :
    (matchPairs (compare_defects ⟨[colLogDist, colAnomaly], [[Val.num 10, Val.str "ML"]]⟩
        ⟨[colLogDist, colAnomaly], [[Val.num (101/10), Val.str "ML"]]⟩ none none (1/10))
      = [(0, 0)] ∧
     newCount (compare_defects ⟨[colLogDist, colAnomaly], [[Val.num 10, Val.str "ML"]]⟩
        ⟨[colLogDist, colAnomaly], [[Val.num (101/10), Val.str "ML"]]⟩ none none (1/10)) = 0) ∧
    (matchPairs (compare_defects ⟨[colLogDist, colAnomaly], [[Val.num 10, Val.str "ML"]]⟩
        ⟨[colLogDist, colAnomaly], [[Val.num (101/10), Val.str "ML"]]⟩ none none (1/20))
      = [] ∧
     newCount (compare_defects ⟨[colLogDist, colAnomaly], [[Val.num 10, Val.str "ML"]]⟩
        ⟨[colLogDist, colAnomaly], [[Val.num (101/10), Val.str "ML"]]⟩ none none (1/20)) = 1) := by
  have habs : |(10 : ℚ) - 101/10| = 1/10 := by
    have h : (10 : ℚ) - 101 / 10 = -(1/10) := by norm_num
    rw [h, abs_neg, abs_of_pos (by norm_num : (0:ℚ) < 1/10)]
  exact ⟨(c4_tolerance_boundary_inclusive 10 (101/10) (1/10) "ML" "ML").1 habs,
    (c4_tolerance_boundary_inclusive 10 (101/10) (1/20) "ML" "ML").2
      (by rw [habs]; norm_num)⟩

theorem matchLoop_mem_mkMatch (ctx : Ctx) :
    ∀ (todo : List (ℕ × List Val)) (mo : List ℕ) (m : MatchRow),
      m ∈ (matchLoop ctx todo mo).1 →
      ∃ nid nrow oid orow, (nid, nrow) ∈ todo ∧ (oid, orow) ∈ idxFrom 0 ctx.oldDF.rows ∧
        m = mkMatch ctx nid nrow oid orow := by
  intro todo
  induction todo with
  | nil => intro mo m hm; exact absurd hm (by simp [matchLoop])
  | cons p rest ih =>
    intro mo m hm
    obtain ⟨nid, nrow⟩ := p
    cases h : bestCandidate ctx mo nrow with
    | none =>
      rw [matchLoop] at hm
      rw [h] at hm
      obtain ⟨a, b, c, d, h1, h2, h3⟩ := ih mo m hm
      exact ⟨a, b, c, d, List.mem_cons_of_mem _ h1, h2, h3⟩
    | some q =>
      obtain ⟨oid, orow⟩ := q
      rw [matchLoop] at hm
      rw [h] at hm
      rcases List.mem_cons.mp hm with rfl | hm'
      · exact ⟨nid, nrow, oid, orow, List.mem_cons_self _ _,
          (pool_spec (bestCandidate_mem_pool h)).1, rfl⟩
      · obtain ⟨a, b, c, d, h1, h2, h3⟩ := ih (oid :: mo) m hm'
        exact ⟨a, b, c, d, List.mem_cons_of_mem _ h1, h2, h3⟩

section

attribute [local semireducible] Rat.add Rat.mul Rat.inv Rat.sub

/-- C5 counterexample: on the one-row growth fixture with years 2015→2017
(`year_diff = 2`), the engine's `growth_rate_mm_per_year` is 1/2 mm/year,
while the claimed formula `growth_rate_pct_per_year * avg_wt / 100 /
year_diff` evaluates to `5 * 10 / 100 / 2 = 1/4`: the claim divides by the
year difference twice. -/
theorem c5_mm_pct_formula_counterexample :
    ((getOk (compare_defects dfOldEx dfNewEx (some 2015) (some 2017) (1/10))
        emptyResult).matches_df.map
      (fun m => m.growth.map
        (fun g => (g.growth_rate_pct_per_year, g.mm.map MmData.growth_rate_mm_per_year))))
      = [some (Val.num 5, some (Val.num (1/2)))] ∧
    Val.num ((1 : ℚ)/2) ≠ Val.num ((5 : ℚ) * ((10 + 10)/2) / 100 / 2) := by
  exact ⟨by decide, by decide⟩

end

/-- C5 amended: for every match carrying millimetre growth data,
`growth_rate_mm_per_year = depth_change_pct * avg_wall_thickness_mm / 100 /
year_diff`, equivalently `growth_rate_pct_per_year * avg_wall_thickness_mm
/ 100` — with no second division by `year_diff`, which is what the original
claim added. -/
theorem c5_mm_pct_consistency_amended (old_df new_df : DF) (oy ny : ℤ) (tol : ℚ)
    (r : CompareResult) (m : MatchRow) (g : GrowthData) (mmd : MmData)
    (orow nrow : List Val) (od nd wo wn : ℚ)
    (h : compare_defects old_df new_df (some oy) (some ny) tol = .ok r)
    (hm : m ∈ r.matches_df)
    (hg : m.growth = some g) (hmm : g.mm = some mmd)
    (ho : old_df.rows.get? m.old_defect_id = some orow)
    (hn : new_df.rows.get? m.new_defect_id = some nrow)
    (hod : old_df.cell orow colDepth = Val.num od)
    (hnd : new_df.cell nrow colDepth = Val.num nd)
    (hwo : old_df.cell orow colWt = Val.num wo)
    (hwn : new_df.cell nrow colWt = Val.num wn) :
    mmd.growth_rate_mm_per_year
        = Val.num ((nd - od) * ((wo + wn) / 2) / 100 / ((ny - oy : ℤ) : ℚ)) ∧
    g.growth_rate_pct_per_year = Val.num ((nd - od) / ((ny - oy : ℤ) : ℚ)) ∧
    mmd.growth_rate_mm_per_year
        = Val.num (((nd - od) / ((ny - oy : ℤ) : ℚ)) * ((wo + wn) / 2) / 100) := by
  simp only [compare_defects] at h
  split at h
  · exact Except.noConfusion h
  split at h
  · exact Except.noConfusion h
  rw [Except.ok.injEq] at h
  subst h
  have hm' : m ∈ (matchLoop (engineCtx old_df new_df (some oy) (some ny) tol)
      (idxFrom 0 new_df.rows) []).1 := hm
  obtain ⟨nid, nrow', oid, orow', htodo, hold, hmk⟩ := matchLoop_mem_mkMatch _ _ _ _ hm'
  have hoid : old_df.rows.get? oid = some orow' := by
    obtain ⟨k, hk, hik⟩ := mem_idxFrom.mp hold
    have hk0 : old_df.rows.get? k = some orow' := hk
    have : oid = k := by omega
    rw [this]
    exact hk0
  have hnid : new_df.rows.get? nid = some nrow' := by
    obtain ⟨k, hk, hik⟩ := mem_idxFrom.mp htodo
    have : nid = k := by omega
    rw [this]
    exact hk
  subst hmk
  have hmo : (mkMatch (engineCtx old_df new_df (some oy) (some ny) tol)
      nid nrow' oid orow').old_defect_id = oid := rfl
  have hmn : (mkMatch (engineCtx old_df new_df (some oy) (some ny) tol)
      nid nrow' oid orow').new_defect_id = nid := rfl
  rw [hmo] at ho
  rw [hmn] at hn
  have horow : orow = orow' := by
    rw [ho] at hoid
    exact Option.some.injEq _ _ ▸ hoid
  have hnrow : nrow = nrow' := by
    rw [hn] at hnid
    exact Option.some.injEq _ _ ▸ hnid
  subst horow
  subst hnrow
  simp only [mkMatch, engineCtx] at hg hmm ⊢
  by_cases hcg : ((match some oy, some ny with
      | some o, some n => decide (o < n)
      | _, _ => false) && (old_df.hasCol colDepth && new_df.hasCol colDepth)) = true
  · rw [if_pos hcg] at hg
    rw [Option.some.injEq] at hg
    subst hg
    by_cases hwt : (old_df.hasCol colWt && new_df.hasCol colWt) = true
    · rw [if_pos hwt] at hmm
      simp only at hmm
      rw [Option.some.injEq] at hmm
      subst hmm
      simp only [hod, hnd, hwo, hwn, Val.sub, Val.add, Val.mul, Val.divC]
      refine ⟨?_, ?_, ?_⟩
      · exact congrArg Val.num (by push_cast; ring)
      · trivial
      · exact congrArg Val.num (by push_cast; ring)
    · rw [if_neg hwt] at hmm
      simp only at hmm
      exact Option.noConfusion hmm
  · rw [if_neg hcg] at hg
    exact Option.noConfusion hg

section

attribute [local semireducible] Rat.add Rat.mul Rat.inv Rat.sub

/-- Witness for the amended C5 at the concrete growth fixture. -/
theorem c5_mm_pct_consistency_amended_witness :
    firstMmEx.growth_rate_mm_per_year
        = Val.num (((30 : ℚ) - 20) * ((10 + 10) / 2) / 100 / ((2017 - 2015 : ℤ) : ℚ)) ∧
    firstGrowthEx.growth_rate_pct_per_year
        = Val.num (((30 : ℚ) - 20) / ((2017 - 2015 : ℤ) : ℚ)) ∧
    firstMmEx.growth_rate_mm_per_year
        = Val.num ((((30 : ℚ) - 20) / ((2017 - 2015 : ℤ) : ℚ)) * ((10 + 10) / 2) / 100) :=
  c5_mm_pct_consistency_amended dfOldEx dfNewEx 2015 2017 (1/10)
    (getOk (compare_defects dfOldEx dfNewEx (some 2015) (some 2017) (1/10)) emptyResult)
    firstMatchEx firstGrowthEx firstMmEx
    [Val.num 10, Val.str "ML", Val.num 20, Val.num 10]
    [Val.num 10, Val.str "ML", Val.num 30, Val.num 10] 20 30 10 10 rfl (by decide) (by decide)
    (by decide) (by decide) (by decide) (by decide) (by decide) (by decide) (by decide)

end

theorem ffill_map_core : ∀ (l : List RawRow) (last : Option ℚ),
    (ffill last l).map RawRow.core = l.map RawRow.core := by
  intro l
  induction l with
  | nil => intro last; rfl
  | cons r rs ih =>
    intro last
    simp only [ffill, List.map_cons, ih]
    rfl

theorem ffill_filter_map_core : ∀ (l : List RawRow) (last : Option ℚ),
    ((ffill last l).filter isDefect).map RawRow.core
      = (l.filter isDefect).map RawRow.core := by
  intro l
  induction l with
  | nil => intro last; rfl
  | cons r rs ih =>
    intro last
    simp only [ffill, List.filter_cons]
    have hdef : isDefect { r with joint_number :=
        match r.joint_number with | some v => some v | none => last } = isDefect r := rfl
    rw [hdef]
    cases hd : isDefect r <;> simp [ih, RawRow.core]

theorem ffill_get : ∀ (l : List RawRow) (last : Option ℚ) (i : ℕ) (r : RawRow),
    (ffill last l).get? i = some r →
      r.joint_number = (l.take (i + 1)).foldl
        (fun a r0 => match r0.joint_number with | some v => some v | none => a) last ∧
      ∃ r0, l.get? i = some r0 ∧ r.core = r0.core := by
  intro l
  induction l with
  | nil => intro last i r h; exact absurd h (by simp [ffill])
  | cons r0 rs ih =>
    intro last i r h
    cases i with
    | zero =>
      simp only [ffill, List.get?] at h
      rw [Option.some.injEq] at h
      subst h
      refine ⟨rfl, r0, rfl, rfl⟩
    | succ i =>
      simp only [ffill, List.get?] at h
      obtain ⟨hj, r1, hr1, hcore⟩ := ih _ i r h
      exact ⟨hj, r1, hr1, hcore⟩

/-- C7: a raw row yields a defect row iff both its length and width are
present (stated as a permutation of the joint-number-erased rows), and
each row of the forward-filled sorted table carries as joint number the
last present joint number among the sorted rows up to and including it
(the nearest preceding marker); the defects table is the defect-filtered
forward-filled sorted table, and the sorted table is ascending in log
distance. -/
theorem c7_splitter_defect_rows (rows : List RawRow) :
    List.Perm ((process_pipeline_defects rows).map RawRow.core)
        ((rows.filter isDefect).map RawRow.core) ∧
    (∀ i r, (ffill none (sortRows rows)).get? i = some r →
      r.joint_number = lastJoint ((sortRows rows).take (i + 1)) ∧
      ∃ r0, (sortRows rows).get? i = some r0 ∧ r.core = r0.core) ∧
    process_pipeline_defects rows = (ffill none (sortRows rows)).filter isDefect ∧
    List.Sorted (fun a b => RawRow.leDist a b = true) (sortRows rows) := by
  refine ⟨?_, ?_, rfl, ?_⟩
  · rw [process_pipeline_defects, ffill_filter_map_core]
    have hperm := List.perm_insertionSort (fun a b : RawRow => RawRow.leDist a b = true) rows
    exact (hperm.filter isDefect).map RawRow.core
  · intro i r h
    exact ffill_get _ _ _ _ h
  · haveI : IsTotal RawRow (fun a b => RawRow.leDist a b = true) := by
      constructor
      intro a b
      rw [RawRow.leDist, RawRow.leDist]
      cases ha : a.log_dist with
      | none =>
        cases hb : b.log_dist with
        | none => left; rfl
        | some qb => right; rfl
      | some qa =>
        cases hb : b.log_dist with
        | none => left; rfl
        | some qb =>
          rcases le_total qa qb with hle | hle
          · left; simpa [leDistOpt] using hle
          · right; simpa [leDistOpt] using hle
    haveI : IsTrans RawRow (fun a b => RawRow.leDist a b = true) := by
      constructor
      intro a b c hab hbc
      rw [RawRow.leDist] at hab hbc ⊢
      cases ha : a.log_dist with
      | none =>
        rw [ha] at hab
        cases hb : b.log_dist with
        | none =>
          rw [hb] at hbc
          cases hc : c.log_dist with
          | none => rfl
          | some qc => rw [hc] at hbc; exact absurd hbc (by simp [leDistOpt])
        | some qb => rw [hb] at hab; exact absurd hab (by simp [leDistOpt])
      | some qa =>
        rw [ha] at hab
        cases hc : c.log_dist with
        | none => rfl
        | some qc =>
          rw [hc] at hbc
          cases hb : b.log_dist with
          | none => rw [hb] at hbc; exact absurd hbc (by simp [leDistOpt])
          | some qb =>
            rw [hb] at hab hbc
            have h1 : qa ≤ qb := by simpa [leDistOpt] using hab
            have h2 : qb ≤ qc := by simpa [leDistOpt] using hbc
            simpa [leDistOpt] using le_trans h1 h2
    exact List.sorted_insertionSort _ _

/-- Witness for C7 on the three-row fixture: the defect at distance 3
inherits joint number 1 from the marker at distance 2 after sorting. -/
theorem c7_splitter_defect_rows_witness :
    List.Perm ((process_pipeline_defects rawRowsEx).map RawRow.core)
        ((rawRowsEx.filter isDefect).map RawRow.core) ∧
    ((⟨some 3, some 1, some 7, some 2, "D2"⟩ : RawRow).joint_number
        = lastJoint ((sortRows rawRowsEx).take 3) ∧
      ∃ r0, (sortRows rawRowsEx).get? 2 = some r0 ∧
        (⟨some 3, some 1, some 7, some 2, "D2"⟩ : RawRow).core = r0.core) :=
  ⟨(c7_splitter_defect_rows rawRowsEx).1,
   (c7_splitter_defect_rows rawRowsEx).2.1 2 ⟨some 3, some 1, some 7, some 2, "D2"⟩ (by decide)⟩

section

attribute [local semireducible] Rat.add Rat.mul Rat.inv Rat.sub

/-- C8 counterexample: at input 0.5 — inside (0,12], so the claim leaves it
unwrapped and predicts "0:30" — the code adds 12 (its wrap threshold is
`< 1`, not `≤ 0`) and returns "12:30". -/
theorem c8_clock_wrap_counterexample :
    decimal_to_clock_str (some (1/2)) = some "12:30" ∧
    decimal_to_clock_claim (some (1/2)) = some "0:30" ∧
    decimal_to_clock_str (some (1/2)) ≠ decimal_to_clock_claim (some (1/2)) := by
  refine ⟨by decide, by decide, by decide⟩

end

/-- C8 amended: the wrap threshold is `< 1` (values below 1 have 12 added;
values in [1,12] are unchanged; values above 12 are reduced modulo 12 with
an exact-zero result becoming 12), the hour is the integer truncation of
the wrapped value, and the minutes are the fractional remainder times 60
truncated, not rounded. -/
theorem c8_clock_wrap_amended (d : ℚ) :
    (d < 1 → decimal_to_clock_str (some d) = clockRender (d + 12)) ∧
    (1 ≤ d → d ≤ 12 → decimal_to_clock_str (some d) = clockRender d) ∧
    (12 < d → pyFloorMod d 12 = 0 → decimal_to_clock_str (some d) = clockRender 12) ∧
    (12 < d → pyFloorMod d 12 ≠ 0 →
      decimal_to_clock_str (some d) = clockRender (pyFloorMod d 12)) := by
  refine ⟨?_, ?_, ?_, ?_⟩
  · intro h1
    rw [decimal_to_clock_str, if_pos h1]
    rfl
  · intro h1 h2
    rw [decimal_to_clock_str, if_neg (not_lt.mpr h1), if_neg (not_lt.mpr h2)]
    rfl
  · intro h1 h2
    rw [decimal_to_clock_str, if_neg (not_lt.mpr (le_trans (by norm_num) (le_of_lt h1))),
      if_pos h1, if_pos h2]
    rfl
  · intro h1 h2
    rw [decimal_to_clock_str, if_neg (not_lt.mpr (le_trans (by norm_num) (le_of_lt h1))),
      if_pos h1, if_neg h2]
    rfl

section

attribute [local semireducible] Rat.add Rat.mul Rat.inv Rat.sub

/-- Witness for the amended C8 at input 0.5: the code wraps it to 12.5 and
renders "12:30". -/
theorem c8_clock_wrap_amended_witness :
    decimal_to_clock_str (some (1/2)) = clockRender ((1/2 : ℚ) + 12) :=
  (c8_clock_wrap_amended (1/2)).1 (by norm_num)

end

/-- C9 counterexample: `decimal_to_clock_str` maps a null input to the
literal string "Unknown", not to a null output. -/
theorem c9_null_propagation_counterexample :
    decimal_to_clock_str none = some "Unknown" ∧ decimal_to_clock_str none ≠ none := by
  refine ⟨rfl, by decide⟩

/-- C9 amended: a null input produces a null output for `float_to_clock`
and `parse_clock` (whose failure sentinel NaN is modelled as `none`), while
`decimal_to_clock_str` returns the sentinel string "Unknown". -/
theorem c9_null_propagation_amended :
    float_to_clock none = none ∧ parse_clock none = none ∧
      decimal_to_clock_str none = some "Unknown" :=
  ⟨rfl, rfl, rfl⟩

theorem heapRead_alloc_lt {h : Heap} {d : DF} {i : ℕ} (hi : i < h.length) :
    heapRead (heapAlloc h d).1 i = heapRead h i := by
  simp only [heapAlloc, heapRead]
  rw [List.get?_append hi]

theorem heapRead_write_ne {h : Heap} {j : ℕ} {d : DF} {i : ℕ} (hne : j ≠ i) :
    heapRead (heapWrite h j d) i = heapRead h i := by
  simp only [heapWrite, heapRead]
  rw [List.get?_set_ne _ _ hne]

/-- C10: the heap-level body of `compare_defects` never mutates the two
argument objects: it copies them into fresh allocations and performs the
`defect_id` column writes on the copies only, so the caller's objects are
identical before and after the call. -/
theorem c10_inputs_not_mutated (h : Heap) (pold pnew : ℕ)
    (oy ny : Option ℤ) (tol : ℚ)
    (h1 : pold < h.length) (h2 : pnew < h.length) :
    heapRead (compare_defects_prog h pold pnew oy ny tol).1 pold = heapRead h pold ∧
    heapRead (compare_defects_prog h pold pnew oy ny tol).1 pnew = heapRead h pnew := by
  have hread : ∀ i, i < h.length →
      heapRead (compare_defects_prog h pold pnew oy ny tol).1 i = heapRead h i := by
    intro i hi
    simp only [compare_defects_prog, heapAlloc]
    rw [heapRead_write_ne (by simp; omega), heapRead_write_ne (by omega)]
    have hi1 : i < (h ++ [heapRead h pold]).length := by simp; omega
    rw [show ((h ++ [heapRead h pold]) ++ [heapRead (h ++ [heapRead h pold]) pnew] : Heap)
        = (heapAlloc (h ++ [heapRead h pold]) (heapRead (h ++ [heapRead h pold]) pnew)).1
      from rfl]
    rw [heapRead_alloc_lt hi1]
    rw [show ((h ++ [heapRead h pold]) : Heap) = (heapAlloc h (heapRead h pold)).1 from rfl]
    rw [heapRead_alloc_lt hi]
  exact ⟨hread pold h1, hread pnew h2⟩

/-- Witness for C10 on a concrete two-object heap. -/
theorem c10_inputs_not_mutated_witness :
    heapRead (compare_defects_prog [⟨["a"], []⟩, ⟨["b"], []⟩] 0 1 none none 0).1 0
        = heapRead [⟨["a"], []⟩, ⟨["b"], []⟩] 0 ∧
    heapRead (compare_defects_prog [⟨["a"], []⟩, ⟨["b"], []⟩] 0 1 none none 0).1 1
        = heapRead [⟨["a"], []⟩, ⟨["b"], []⟩] 1 :=
  c10_inputs_not_mutated [⟨["a"], []⟩, ⟨["b"], []⟩] 0 1 none none 0 (by decide) (by decide)
